import Mathlib

/-!
Verification development for a small HTTP file server (Rust, axum) consisting of
`src/main.rs` (routing, path safety, responder) and `src/auth.rs` (HTTP Basic
authentication middleware).

Modelling conventions:
* Filesystem paths are `String`s, as in Rust where `Path` wraps a string.
  The component-level semantics of `std::path::Path` (`components`,
  `starts_with`, `parent`, `file_name`, `join`) are embedded below for Unix
  paths (no Windows prefixes).
* Filesystem effects (`exists`, `canonicalize`, `is_file`, `is_dir`,
  `File::open`, `read_dir`) are an oracle structure `Fs`; all of these are
  read-only queries, so they do not change the `Fs`.  `File::open` yields the
  file contents that the response will stream.
* External pure collaborators (base64 decoding, UTF-8 decoding, bcrypt
  verification, MIME guessing) are oracle function parameters.
* A Rust panic (`unwrap` on `Err`/`None`) is modelled as `Option.none`.
* The handler additionally returns the ordered list of filesystem operations
  it performed (`FsOp` trace), so ordering properties can be stated.
-/

/-- Components of a Unix path, following `std::path::Component`
(`Prefix` never occurs on Unix). -/
inductive PathComponent where
  | rootDir
  | curDir
  | parentDir
  | normal (s : String)
deriving DecidableEq, Repr

/-- Split a character list on a separator character; like Rust `str::split`,
it always yields at least one (possibly empty) segment, and `n` separators
yield `n + 1` segments. -/
def splitOnChar (sep : Char) : List Char → List (List Char)
  | [] => [[]]
  | c :: rest =>
    if c = sep then [] :: splitOnChar sep rest
    else
      match splitOnChar sep rest with
      | s :: ss => (c :: s) :: ss
      | [] => [[c]]

/-- All `/`-separated segments of a path string, before any filtering:
these are the raw, unnormalized path segments. -/
def allSegs (s : String) : List String :=
  (splitOnChar '/' s.data).map String.mk

/-- Whether the path has a root, i.e. begins with `/` (Unix `Path::is_absolute`). -/
def isAbs (s : String) : Bool :=
  match s.data with
  | [] => false
  | c :: _ => c = '/'

/-- Whether the path string ends with the separator `/`. -/
def endsWithSlash (s : String) : Bool :=
  match s.data.getLast? with
  | some c => c = '/'
  | none => false

/-- Mapping of a nonempty, non-`.` raw segment to a path component. -/
def segToComp (x : String) : PathComponent :=
  if x = ".." then PathComponent.parentDir else PathComponent.normal x

/-- The components of a path, following `Path::components` on Unix:
empty segments (repeated `/`) are dropped, `.` segments are dropped except
when they are the leading segment of a relative path, a leading `/` yields
`RootDir`, and `..` yields `ParentDir`. -/
def components (s : String) : List PathComponent :=
  if isAbs s then
    PathComponent.rootDir ::
      ((((allSegs s).filter (fun x => x ≠ "")).filter (fun x => x ≠ ".")).map segToComp)
  else
    match (allSegs s).filter (fun x => x ≠ "") with
    | [] => []
    | first :: rest =>
      (if first = "." then PathComponent.curDir else segToComp first) ::
        (rest.filter (fun x => x ≠ ".")).map segToComp

/-- `Path::starts_with`: component-wise prefix test. -/
def pathStartsWith (p base : String) : Bool :=
  (components base).isPrefixOf (components p)

/-- Text of a single component, used when re-rendering a component list. -/
def compString : PathComponent → String
  | PathComponent.rootDir => "/"
  | PathComponent.curDir => "."
  | PathComponent.parentDir => ".."
  | PathComponent.normal s => s

/-- Render a component list back to a path string. -/
def renderPath (cs : List PathComponent) : String :=
  match cs with
  | PathComponent.rootDir :: rest => "/" ++ String.intercalate "/" (rest.map compString)
  | _ => String.intercalate "/" (cs.map compString)

/-- `Path::parent`: the path without its final component; `none` for the
empty path and for a bare root. -/
def pathParent (s : String) : Option String :=
  match components s with
  | [] => none
  | [PathComponent.rootDir] => none
  | cs => some (renderPath cs.dropLast)

/-- `Path::file_name`: the final component when it is a normal component. -/
def fileName (s : String) : Option String :=
  match (components s).getLast? with
  | some (PathComponent.normal n) => some n
  | _ => none

/-- `Path::join` / `PathBuf::push` on Unix: an absolute argument replaces the
base; otherwise the argument is appended, inserting a `/` separator when the
base is nonempty and does not already end with one. -/
def pathJoin (base p : String) : String :=
  if isAbs p then p
  else if base = "" then p
  else if endsWithSlash base then base ++ p
  else base ++ "/" ++ p

/-- `str::split_once` on character lists: split at the first occurrence of
`pat`, returning the parts before and after it. -/
def splitOnceAux (hay pat : List Char) : Option (List Char × List Char) :=
  match hay with
  | [] => if pat = [] then some ([], []) else none
  | c :: rest =>
    if pat.isPrefixOf (c :: rest) then some ([], (c :: rest).drop pat.length)
    else
      match splitOnceAux rest pat with
      | some (a, b) => some (c :: a, b)
      | none => none

/-- `remove_base_dir` from `main.rs`: split the path string at the first
occurrence of the base string and keep what follows.  The source unwraps the
`split_once` result, so a missing occurrence is a panic, modelled as `none`. -/
def removeBaseDir (path base : String) : Option String :=
  match splitOnceAux path.data base.data with
  | some (_, after) => some (String.mk after)
  | none => none

/-- Specification-side helper: drop the leading `base.length` characters. -/
def stripBase (base c : String) : String :=
  String.mk (c.data.drop base.data.length)

/-- Per-user configuration record, from `auth.rs` (`UserData`):
a bcrypt password hash and the user's root directory. -/
structure UserData where
  password : String
  directory : String
deriving DecidableEq, Repr

/-- Identity attached to a request after successful authentication
(`AuthenticatedUser` in `auth.rs`). -/
structure AuthenticatedUser where
  username : String
  directory : String
deriving DecidableEq, Repr

/-- Body of an HTTP response: inline text, or a stream of file contents. -/
inductive RBody where
  | text (s : String)
  | stream (contents : String)
deriving DecidableEq, Repr

/-- An HTTP response: status, headers in order, body. -/
structure Resp where
  status : Nat
  headers : List (String × String)
  body : RBody
deriving DecidableEq, Repr

/-- The single 401 challenge response built at the end of `basic_auth`. -/
def reject401 : Resp :=
  { status := 401
    headers := [("WWW-Authenticate", "Basic realm=\"Files\"")]
    body := RBody.text "Unauthorized" }

/-- Outcome of the authentication middleware: pass the request on with an
identity, or short-circuit with a response. -/
inductive AuthResult where
  | proceed (u : AuthenticatedUser)
  | reject (r : Resp)
deriving DecidableEq, Repr

/-- `HashMap::get` modelled on an association list with unique keys:
first match wins. -/
def lookupUser (users : List (String × UserData)) (k : String) : Option UserData :=
  (users.find? (fun e => e.1 == k)).map (fun e => e.2)

/-- The colon split performed by `basic_auth`: Rust `str::split(':')`. -/
def splitColon (cs : List Char) : List (List Char) :=
  splitOnChar ':' cs

/-- Credential extraction in `basic_auth`: `split(':')` then
`next().unwrap_or("")` twice, i.e. the first split segment is the username
and the second (not the whole remainder) is the password. -/
def parseCreds (decoded : String) : String × String :=
  let parts := splitColon decoded.data
  (String.mk ((parts.head?).getD []), String.mk (((parts.drop 1).head?).getD []))

/-- `strip_prefix "Basic "` on the Authorization header value. -/
def stripBasic (s : String) : Option String :=
  if ("Basic ").data.isPrefixOf s.data then some (String.mk (s.data.drop 6))
  else none

/-- The `basic_auth` middleware from `auth.rs`.  `bdecode` models base64
decoding to bytes, `utf8decode` models `String::from_utf8`, and `verify`
models `bcrypt::verify` (its `Result` collapsed with `unwrap_or(false)`).
Every failure falls through to the single 401 response. -/
def basic_auth (users : List (String × UserData))
    (bdecode : String → Option (List Nat)) (utf8decode : List Nat → Option String)
    (verify : String → String → Option Bool) (authHeader : Option String) : AuthResult :=
  match authHeader with
  | none => AuthResult.reject reject401
  | some s =>
    match stripBasic s with
    | none => AuthResult.reject reject401
    | some encoded =>
      match bdecode encoded with
      | none => AuthResult.reject reject401
      | some bytes =>
        match utf8decode bytes with
        | none => AuthResult.reject reject401
        | some decoded =>
          let creds := parseCreds decoded
          match lookupUser users creds.1 with
          | none => AuthResult.reject reject401
          | some user =>
            if (verify creds.2 user.password).getD false then
              AuthResult.proceed { username := creds.1, directory := user.directory }
            else AuthResult.reject reject401

/-- Filesystem oracle: the results the filesystem would give for each query
the server performs.  `existsP` models `std::fs::exists` (`none` for `Err`),
`canonicalizeP` models `std::fs::canonicalize`, `openP` models `File::open`
(yielding the contents to stream), and `readDirP` models `read_dir` (the
child entry names, `none` for `Err`).  All are read-only queries. -/
structure Fs where
  existsP : String → Option Bool
  canonicalizeP : String → Option String
  isFileP : String → Bool
  isDirP : String → Bool
  openP : String → Option String
  readDirP : String → Option (List String)

/-- `is_safe` from `main.rs`: reject when any component of the joined,
unnormalized path is `..`; otherwise canonicalize and require the canonical
path to start with the base directory component-wise; canonicalization
failure rejects. -/
def is_safe (fs : Fs) (path : String) (base_dir : String) : Bool :=
  if (components path).any (fun c => c == PathComponent.parentDir) then false
  else
    match fs.canonicalizeP path with
    | some true_path => pathStartsWith true_path base_dir
    | none => false

/-- A single filesystem operation, recorded with the path it touches. -/
inductive FsOp where
  | existsOp (p : String)
  | canonOp (p : String)
  | isFileOp (p : String)
  | isDirOp (p : String)
  | openOp (p : String)
  | readDirOp (p : String)
deriving DecidableEq, Repr

/-- The filesystem operations `is_safe` performs: none when the `..` check
short-circuits, otherwise exactly the canonicalization. -/
def is_safe_trace (path : String) : List FsOp :=
  if (components path).any (fun c => c == PathComponent.parentDir) then []
  else [FsOp.canonOp path]

/-- The `not_found!` response of `main.rs`. -/
def notFoundResp : Resp :=
  { status := 404, headers := [], body := RBody.text "Not Found" }

/-- The defensive 500 response of `main.rs`. -/
def serverErrorResp : Resp :=
  { status := 500, headers := [], body := RBody.text "Internal server error" }

/-- `html_link` from `main.rs`: href is `/files/` plus the relative path, and
the displayed text is that relative path, with the empty path displayed as
`..`. -/
def html_link (pb : String) : String :=
  let href := "/files/" ++ pb
  let s := if pb = "" then ".." else pb
  "<a href=\"" ++ href ++ "\">" ++ s ++ "</a>"

/-- Lexicographic comparison of character lists by code point, matching the
byte order in which Rust compares `OsStr`/`PathBuf` contents (UTF-8 byte
order and code-point order agree). -/
def listLe : List Char → List Char → Bool
  | [], _ => true
  | _ :: _, [] => false
  | a :: as, b :: bs =>
    if a.toNat < b.toNat then true
    else if b.toNat < a.toNat then false
    else listLe as bs

/-- The ordering `Vec::sort` uses on the child paths: lexicographic string
order (which agrees with `PathBuf` component order for sibling paths). -/
def strLe (a b : String) : Bool :=
  listLe a.data b.data

/-- Insert an element into a sorted list, before the first element it
compares less-or-equal to. -/
def insertSorted (le : α → α → Bool) (a : α) : List α → List α
  | [] => [a]
  | b :: rest => if le a b then a :: b :: rest else b :: insertSorted le a rest

/-- Stable sort by insertion; for a total order this yields the same result
as `Vec::sort`. -/
def sortBy (le : α → α → Bool) : List α → List α
  | [] => []
  | a :: rest => insertSorted le a (sortBy le rest)

/-- The child-link loop of `handle_dir`: for each child path, strip the base
directory (panicking like the source when it does not occur) and append its
link and `<br>` line break. -/
def childLinks (base : String) : List String → Option String
  | [] => some ""
  | c :: rest =>
    match removeBaseDir c base with
    | none => none
    | some p =>
      match childLinks base rest with
      | none => none
      | some tailStr => some (html_link p ++ "<br>\n" ++ tailStr)

/-- The sorted full child paths of a directory listing: each entry name is
joined onto the directory (`entry.path()`), then the vector is sorted. -/
def childrenOf (file_path : String) (names : List String) : List String :=
  sortBy strLe (names.map (fun n => pathJoin file_path n))

/-- The parent-directory line of a listing: a link to the parent of the
base-stripped directory path when it has one, nothing otherwise. -/
def parentLine (dir : String) : String :=
  match pathParent dir with
  | some par => html_link par ++ "<br>\n"
  | none => ""

/-- `handle_dir` from `main.rs`: read the directory (a `read_dir` error is an
`unwrap` panic), build the full child paths, sort them, then emit the parent
link (when the base-stripped path has a parent) followed by one link per
child. -/
def handle_dir (fs : Fs) (file_path base_dir : String) : Option Resp :=
  match fs.readDirP file_path with
  | none => none
  | some names =>
    match removeBaseDir file_path base_dir with
    | none => none
    | some dir =>
      match childLinks base_dir (childrenOf file_path names) with
      | none => none
      | some links =>
        some { status := 200, headers := [], body := RBody.text (parentLine dir ++ links) }

/-- `handle_file` from `main.rs`: 200 with the streamed contents, a MIME
guess as Content-Type, and a Content-Disposition naming the file's base name
(`file_name().unwrap()` panics when the path has no normal final component). -/
def handle_file (mime : String → String) (contents : String) (file_path : String) : Option Resp :=
  match fileName file_path with
  | none => none
  | some nm =>
    some { status := 200
           headers := [("Content-Type", mime file_path),
                       ("Content-Disposition", "attachment; filename=\"" ++ nm ++ "\"")]
           body := RBody.stream contents }

/-- Result of one run of the request handler: the response (`none` for a
panic), the ordered filesystem-operation trace, and the filesystem as left
behind (all operations performed are read-only). -/
structure HOut where
  resp : Option Resp
  trace : List FsOp
  fsAfter : Fs

/-- `request_handler` from `main.rs`: join the requested path onto the
authenticated user's directory, check existence, check `is_safe`, then serve
a file (open failure is 404), a directory listing, or the defensive 500;
a failed existence or safety check yields the 404 `not_found!` response. -/
def request_handler (fs : Fs) (mime : String → String) (user : AuthenticatedUser)
    (pathOpt : Option String) : HOut :=
  let dir := user.directory
  let absolute_file_path :=
    match pathOpt with
    | some p => pathJoin dir p
    | none => dir
  let t0 := [FsOp.existsOp absolute_file_path]
  if (fs.existsP absolute_file_path).getD false then
    let t1 := t0 ++ is_safe_trace absolute_file_path
    if is_safe fs absolute_file_path dir then
      if fs.isFileP absolute_file_path then
        let t2 := t1 ++ [FsOp.isFileOp absolute_file_path, FsOp.openOp absolute_file_path]
        match fs.openP absolute_file_path with
        | some contents =>
          { resp := handle_file mime contents absolute_file_path, trace := t2, fsAfter := fs }
        | none =>
          { resp := some notFoundResp, trace := t2, fsAfter := fs }
      else
        if fs.isDirP absolute_file_path then
          { resp := handle_dir fs absolute_file_path dir
            trace := t1 ++ [FsOp.isFileOp absolute_file_path, FsOp.isDirOp absolute_file_path,
                            FsOp.readDirOp absolute_file_path]
            fsAfter := fs }
        else
          { resp := some serverErrorResp
            trace := t1 ++ [FsOp.isFileOp absolute_file_path, FsOp.isDirOp absolute_file_path]
            fsAfter := fs }
    else { resp := some notFoundResp, trace := t1, fsAfter := fs }
  else { resp := some notFoundResp, trace := t0, fsAfter := fs }

/-- Concatenation of a list of strings, front to back. -/
def concatLines : List String → String
  | [] => ""
  | a :: rest => a ++ concatLines rest

/-- A fixed identity used by concrete evaluations: user `alice` with root
directory `/srv/alice`. -/
def u0 : AuthenticatedUser :=
  { username := "alice", directory := "/srv/alice" }

/-- A fixed MIME-guess oracle used by concrete evaluations. -/
def mime0 : String → String :=
  fun _ => "application/octet-stream"

/-- Filesystem fixture in which every path exists, canonicalizes to itself,
and is a regular file with contents `hello`. -/
def fsId : Fs :=
  { existsP := fun _ => some true
    canonicalizeP := fun p => some p
    isFileP := fun _ => true
    isDirP := fun _ => false
    openP := fun _ => some "hello"
    readDirP := fun _ => none }

/-- Filesystem fixture in which every path exists but canonicalization fails
(for example, the entry vanished between the two queries). -/
def fsGhost : Fs :=
  { existsP := fun _ => some true
    canonicalizeP := fun _ => none
    isFileP := fun _ => false
    isDirP := fun _ => false
    openP := fun _ => none
    readDirP := fun _ => none }

/-- Filesystem fixture: an existing, safe directory whose `read_dir` fails
(for example, its read permission was revoked after the metadata checks). -/
def fsDirErr : Fs :=
  { existsP := fun _ => some true
    canonicalizeP := fun p => some p
    isFileP := fun _ => false
    isDirP := fun _ => true
    openP := fun _ => none
    readDirP := fun _ => none }

/-- Filesystem fixture: every path is a directory with the single child
entry `a.txt`. -/
def fsDir1 : Fs :=
  { existsP := fun _ => some true
    canonicalizeP := fun p => some p
    isFileP := fun _ => false
    isDirP := fun _ => true
    openP := fun _ => none
    readDirP := fun _ => some ["a.txt"] }

/-- Filesystem fixture: every path is a directory with the two child
entries `b.txt` and `a.txt`, listed unsorted. -/
def fsDir2 : Fs :=
  { existsP := fun _ => some true
    canonicalizeP := fun p => some p
    isFileP := fun _ => false
    isDirP := fun _ => true
    openP := fun _ => none
    readDirP := fun _ => some ["b.txt", "a.txt"] }

/-- Credential-store fixture: one user, `alice`, with an opaque stored hash
and root directory `/srv/alice`. -/
def users1 : List (String × UserData) :=
  [("alice", { password := "stored-hash", directory := "/srv/alice" })]

/-- Base64 oracle fixture: decodes one fixed token to the byte list `[0]`. -/
def bdec1 : String → Option (List Nat) :=
  fun s => if s = "QWxpY2U6cHc=" then some [0] else none

/-- UTF-8 oracle fixture: decodes the byte list `[0]` to `alice:pw`. -/
def udec1 : List Nat → Option String :=
  fun b => if b = [0] then some "alice:pw" else none

/-- Bcrypt oracle fixture: verification succeeds exactly for password `pw`
against the stored hash `stored-hash`. -/
def ver1 : String → String → Option Bool :=
  fun p h => some (decide (p = "pw") && decide (h = "stored-hash"))

/-- Credential-store fixture: one user, `alice`, whose stored hash `hash2`
is the hash of the colon-containing password `pa:ss`. -/
def users2 : List (String × UserData) :=
  [("alice", { password := "hash2", directory := "/srv/alice" })]

/-- Base64 oracle fixture: decodes one fixed token to the byte list `[1]`. -/
def bdec2 : String → Option (List Nat) :=
  fun s => if s = "tok" then some [1] else none

/-- UTF-8 oracle fixture: decodes the byte list `[1]` to `alice:pa:ss`,
the correct credentials of the `users2` user. -/
def udec2 : List Nat → Option String :=
  fun b => if b = [1] then some "alice:pa:ss" else none

/-- Bcrypt oracle fixture: verification succeeds exactly for password `pa:ss`
against the stored hash `hash2`. -/
def ver2 : String → String → Option Bool :=
  fun p h => some (decide (p = "pa:ss") && decide (h = "hash2"))

/-! ## General lemmas about the embedded string and path operations -/

theorem string_data_append (a b : String) : (a ++ b).data = a.data ++ b.data := rfl

theorem string_mk_data (s : String) : String.mk s.data = s := rfl

theorem string_data_ne_nil (s : String) (h : s ≠ "") : s.data ≠ [] := by
  intro hd
  apply h
  rw [← string_mk_data s, hd]

theorem strAppend_ne_empty_right (x y : String) (h : y ≠ "") : x ++ y ≠ "" := by
  intro hxy
  have hd : (x ++ y).data = [] := by rw [hxy]
  have hd2 : x.data ++ y.data = [] := hd
  exact string_data_ne_nil y h (List.append_eq_nil.mp hd2).2

theorem isPrefixOf_append (l t : List Char) : l.isPrefixOf (l ++ t) = true := by
  induction l with
  | nil => simp [List.isPrefixOf]
  | cons c cs ih => simp [List.isPrefixOf, ih]

theorem splitOnceAux_of_front (x pat : List Char) (h : pat ≠ []) :
    splitOnceAux (pat ++ x) pat = some ([], x) := by
  cases pat with
  | nil => exact absurd rfl h
  | cons p ps =>
    show splitOnceAux (p :: (ps ++ x)) (p :: ps) = some ([], x)
    unfold splitOnceAux
    rw [if_pos]
    · rw [show p :: (ps ++ x) = (p :: ps) ++ x from rfl, List.drop_left]
    · exact isPrefixOf_append (p :: ps) x

theorem removeBaseDir_of_front (base x : String) (h : base ≠ "") :
    removeBaseDir (base ++ x) base = some x := by
  unfold removeBaseDir
  rw [string_data_append, splitOnceAux_of_front x.data base.data (string_data_ne_nil base h)]

theorem stripBase_of_front (base x : String) : stripBase base (base ++ x) = x := by
  unfold stripBase
  rw [string_data_append, List.drop_left, string_mk_data]

theorem splitOnChar_ne_nil (sep : Char) (l : List Char) : splitOnChar sep l ≠ [] := by
  cases l with
  | nil => simp [splitOnChar]
  | cons c rest =>
    unfold splitOnChar
    by_cases hc : c = sep
    · simp [hc]
    · rw [if_neg hc]
      cases splitOnChar sep rest with
      | nil => simp
      | cons s ss => simp

theorem splitOnChar_head (sep : Char) (l : List Char) :
    ∃ t, splitOnChar sep l = l.takeWhile (fun c => c != sep) :: t := by
  induction l with
  | nil => exact ⟨[], rfl⟩
  | cons c rest ih =>
    unfold splitOnChar
    by_cases hc : c = sep
    · refine ⟨splitOnChar sep rest, ?_⟩
      rw [if_pos hc]
      have : (c != sep) = false := by simp [hc]
      simp [List.takeWhile, this]
    · rw [if_neg hc]
      obtain ⟨t, ht⟩ := ih
      rw [ht]
      refine ⟨t, ?_⟩
      have : (c != sep) = true := by simp [hc]
      simp [List.takeWhile, this]

theorem splitOnChar_of_sep (sep : Char) (u rest : List Char) (hu : sep ∉ u) :
    splitOnChar sep (u ++ sep :: rest) = u :: splitOnChar sep rest := by
  induction u with
  | nil => simp [splitOnChar]
  | cons c u ih =>
    have hc : ¬ (c = sep) := fun h => hu (h ▸ List.mem_cons_self c u)
    have hu' : sep ∉ u := fun h => hu (List.mem_cons_of_mem c h)
    rw [List.cons_append]
    rw [show splitOnChar sep (c :: (u ++ sep :: rest)) =
      (match splitOnChar sep (u ++ sep :: rest) with
       | s :: ss => (c :: s) :: ss
       | [] => [[c]]) from by rw [splitOnChar, if_neg hc]]
    rw [ih hu']

theorem splitOnChar_no_sep (sep : Char) (u : List Char) (hu : sep ∉ u) :
    splitOnChar sep u = [u] := by
  induction u with
  | nil => rfl
  | cons c u ih =>
    have hc : ¬ (c = sep) := fun h => hu (h ▸ List.mem_cons_self c u)
    have hu' : sep ∉ u := fun h => hu (List.mem_cons_of_mem c h)
    rw [show splitOnChar sep (c :: u) =
      (match splitOnChar sep u with
       | s :: ss => (c :: s) :: ss
       | [] => [[c]]) from by rw [splitOnChar, if_neg hc]]
    rw [ih hu']

theorem parentDir_mem_components (s : String) (h : ".." ∈ allSegs s) :
    PathComponent.parentDir ∈ components s := by
  have h1 : ".." ∈ (allSegs s).filter (fun x => x ≠ "") :=
    List.mem_filter.mpr ⟨h, by decide⟩
  unfold components
  by_cases habs : isAbs s = true
  · rw [if_pos habs]
    exact List.mem_cons_of_mem _
      (List.mem_map.mpr ⟨"..", List.mem_filter.mpr ⟨h1, by decide⟩, rfl⟩)
  · rw [if_neg habs]
    cases hsegs : (allSegs s).filter (fun x => x ≠ "") with
    | nil => rw [hsegs] at h1; cases h1
    | cons first rest =>
      rw [hsegs] at h1
      cases List.mem_cons.mp h1 with
      | inl hfirst =>
        rw [← hfirst]
        exact List.mem_cons_self _ _
      | inr hrest =>
        exact List.mem_cons_of_mem _
          (List.mem_map.mpr ⟨"..", List.mem_filter.mpr ⟨hrest, by decide⟩, rfl⟩)

theorem parseCreds_of_colon (uname pwd : String) (hu : ':' ∉ uname.data)
    (hp : ':' ∉ pwd.data) : parseCreds (uname ++ ":" ++ pwd) = (uname, pwd) := by
  unfold parseCreds splitColon
  have hdata : (uname ++ ":" ++ pwd).data = uname.data ++ ':' :: pwd.data := by
    rw [string_data_append, string_data_append]
    rw [List.append_assoc]
    rfl
  rw [hdata, splitOnChar_of_sep ':' uname.data pwd.data hu,
    splitOnChar_no_sep ':' pwd.data hp]
  rfl

theorem stripBasic_of_front (enc : String) : stripBasic ("Basic " ++ enc) = some enc := by
  unfold stripBasic
  rw [if_pos]
  · rw [string_data_append]
    have h6 : (6 : Nat) = ("Basic ").data.length := rfl
    rw [h6, List.drop_left, string_mk_data]
  · rw [string_data_append]
    exact isPrefixOf_append ("Basic ").data enc.data

/-! ## Claim theorems -/

/-- C2: for every joined path containing a parent-directory (`..`) segment
before any normalization, `is_safe` rejects, regardless of the filesystem
(in particular regardless of whether canonicalization would stay within the
root). -/
theorem c2_dotdot_segment_rejected (fs : Fs) (joined base_dir : String)
    (h : ".." ∈ allSegs joined) : is_safe fs joined base_dir = false := by
  have hmem := parentDir_mem_components joined h
  have hany : (components joined).any (fun c => c == PathComponent.parentDir) = true :=
    List.any_eq_true.mpr ⟨PathComponent.parentDir, hmem, by decide⟩
  unfold is_safe
  rw [if_pos hany]

/-- Witness for C2 at the traversal path `/srv/alice/../etc`. -/
theorem c2_dotdot_segment_rejected_witness :
    (".." ∈ allSegs "/srv/alice/../etc")
    ∧ is_safe fsGhost "/srv/alice/../etc" "/srv/alice" = false :=
  ⟨by decide, c2_dotdot_segment_rejected fsGhost "/srv/alice/../etc" "/srv/alice" (by decide)⟩

/-- C3: `is_safe` accepts only when canonicalization succeeded and its result
has the base directory as a component-wise path prefix; `/root-evil` does not
pass the component-wise test against `/root`; a canonical path outside the
root (symlink escape) is rejected; canonicalization failure is rejected. -/
theorem c3_canonical_containment :
    (∀ (fs : Fs) (p b : String), is_safe fs p b = true →
        ∃ tp, fs.canonicalizeP p = some tp ∧ pathStartsWith tp b = true)
    ∧ pathStartsWith "/root-evil" "/root" = false
    ∧ (∀ (fs : Fs) (p b tp : String), fs.canonicalizeP p = some tp →
        pathStartsWith tp b = false → is_safe fs p b = false)
    ∧ (∀ (fs : Fs) (p b : String), fs.canonicalizeP p = none → is_safe fs p b = false) := by
  refine ⟨?_, by decide, ?_, ?_⟩
  · intro fs p b h
    unfold is_safe at h
    by_cases hany : (components p).any (fun c => c == PathComponent.parentDir) = true
    · rw [if_pos hany] at h
      cases h
    · rw [if_neg hany] at h
      cases hc : fs.canonicalizeP p with
      | none => rw [hc] at h; cases h
      | some tp =>
        rw [hc] at h
        exact ⟨tp, rfl, h⟩
  · intro fs p b tp hc hsw
    unfold is_safe
    by_cases hany : (components p).any (fun c => c == PathComponent.parentDir) = true
    · rw [if_pos hany]
    · rw [if_neg hany, hc]
      exact hsw
  · intro fs p b hc
    unfold is_safe
    by_cases hany : (components p).any (fun c => c == PathComponent.parentDir) = true
    · rw [if_pos hany]
    · rw [if_neg hany, hc]

/-- Witness for C3 at a path accepted by `is_safe` under `fsId`. -/
theorem c3_canonical_containment_witness :
    ∃ tp, fsId.canonicalizeP "/srv/alice/notes.txt" = some tp
        ∧ pathStartsWith tp "/srv/alice" = true :=
  c3_canonical_containment.1 fsId "/srv/alice/notes.txt" "/srv/alice" (by decide)

/-- C6: for a relative requested path, `Path::join` is ordinary path-segment
concatenation of the root and the requested path, with no normalization: a
separator is inserted exactly when the root does not already end with one. -/
theorem c6_join_is_concatenation (dir p : String) (hrel : isAbs p = false) :
    (dir ≠ "" → endsWithSlash dir = false → pathJoin dir p = dir ++ "/" ++ p)
    ∧ (endsWithSlash dir = true → pathJoin dir p = dir ++ p) := by
  constructor
  · intro hne hslash
    unfold pathJoin
    rw [if_neg (by simp [hrel]), if_neg hne, if_neg (by simp [hslash])]
  · intro hslash
    have hne : ¬ (dir = "") := by
      intro h
      rw [h] at hslash
      exact absurd hslash (by decide)
    unfold pathJoin
    rw [if_neg (by simp [hrel]), if_neg hne, if_pos hslash]

/-- Witness for C6 at root `/srv/alice` and requested path `notes.txt`. -/
theorem c6_join_is_concatenation_witness :
    pathJoin "/srv/alice" "notes.txt" = "/srv/alice" ++ "/" ++ "notes.txt" :=
  (c6_join_is_concatenation "/srv/alice" "notes.txt" (by decide)).1 (by decide) (by decide)

theorem request_handler_fs_unchanged (fs : Fs) (mime : String → String)
    (u : AuthenticatedUser) (po : Option String) :
    (request_handler fs mime u po).fsAfter = fs := by
  unfold request_handler
  dsimp only
  repeat' split
  all_goals rfl

/-- C10: the handler is deterministic and mutates no server state: running
the same GET twice against the filesystem state left by the first run yields
the identical response and operation trace, and the filesystem state is
unchanged. -/
theorem c10_get_idempotent (fs : Fs) (mime : String → String) (u : AuthenticatedUser)
    (po : Option String) :
    (request_handler (request_handler fs mime u po).fsAfter mime u po).resp
        = (request_handler fs mime u po).resp
    ∧ (request_handler (request_handler fs mime u po).fsAfter mime u po).trace
        = (request_handler fs mime u po).trace
    ∧ (request_handler fs mime u po).fsAfter = fs := by
  have h := request_handler_fs_unchanged fs mime u po
  rw [h]
  exact ⟨rfl, rfl, rfl⟩

theorem basic_auth_cases (users : List (String × UserData))
    (bdec : String → Option (List Nat)) (udec : List Nat → Option String)
    (ver : String → String → Option Bool) (h : Option String) :
    (∃ u, basic_auth users bdec udec ver h = AuthResult.proceed u)
    ∨ basic_auth users bdec udec ver h = AuthResult.reject reject401 := by
  unfold basic_auth
  cases h with
  | none => exact Or.inr rfl
  | some s =>
    dsimp only
    cases stripBasic s with
    | none => exact Or.inr rfl
    | some encoded =>
      dsimp only
      cases bdec encoded with
      | none => exact Or.inr rfl
      | some bytes =>
        dsimp only
        cases udec bytes with
        | none => exact Or.inr rfl
        | some decoded =>
          dsimp only
          cases lookupUser users (parseCreds decoded).1 with
          | none => exact Or.inr rfl
          | some user =>
            dsimp only
            by_cases hv : ((ver (parseCreds decoded).2 user.password).getD false) = true
            · exact Or.inl ⟨_, by rw [if_pos hv]⟩
            · exact Or.inr (by rw [if_neg hv])

/-- C5 counterexample: the configured user `alice` has the correct password
`pa:ss` (it verifies against the stored hash `hash2`), and the client sends
exactly `alice:pa:ss`; yet `basic_auth` rejects with the 401 response,
because the colon split verifies only the truncated `pa`.  So the claim that
every configured user with the correct password authenticates successfully
is false. -/
theorem c5_counterexample :
    ver2 "pa:ss" "hash2" = some true
    ∧ udec2 [1] = some ("alice" ++ ":" ++ "pa:ss")
    ∧ lookupUser users2 "alice" = some { password := "hash2", directory := "/srv/alice" }
    ∧ basic_auth users2 bdec2 udec2 ver2 (some ("Basic " ++ "tok")) =
        AuthResult.reject reject401 := by decide

/-- C5 (amended): a configured user whose correct password contains no colon
and who presents credentials that verify against the stored hash is
authenticated and yields that user's root directory, and every failure
(missing or malformed header, decode failure, unknown user, failed
verification — including a correct password containing a colon, which the
split truncates) yields the one identical response: 401 with the
`WWW-Authenticate: Basic realm="Files"` header and body `Unauthorized`. -/
theorem c5_auth_success_and_uniform_401 :
    (∀ (users : List (String × UserData)) (bdec : String → Option (List Nat))
        (udec : List Nat → Option String) (ver : String → String → Option Bool)
        (enc : String) (bytes : List Nat) (uname pwd : String) (ud : UserData),
        bdec enc = some bytes →
        udec bytes = some (uname ++ ":" ++ pwd) →
        ':' ∉ uname.data → ':' ∉ pwd.data →
        lookupUser users uname = some ud →
        ver pwd ud.password = some true →
        basic_auth users bdec udec ver (some ("Basic " ++ enc)) =
          AuthResult.proceed { username := uname, directory := ud.directory })
    ∧ (∀ (users : List (String × UserData)) (bdec : String → Option (List Nat))
        (udec : List Nat → Option String) (ver : String → String → Option Bool)
        (h : Option String),
        (∀ u, basic_auth users bdec udec ver h ≠ AuthResult.proceed u) →
        basic_auth users bdec udec ver h = AuthResult.reject reject401) := by
  constructor
  · intro users bdec udec ver enc bytes uname pwd ud hbd hud hu hp hlu hv
    unfold basic_auth
    dsimp only
    rw [stripBasic_of_front]
    dsimp only
    rw [hbd]
    dsimp only
    rw [hud]
    dsimp only
    rw [parseCreds_of_colon uname pwd hu hp]
    dsimp only
    rw [hlu]
    dsimp only
    rw [hv]
    rfl
  · intro users bdec udec ver h hne
    rcases basic_auth_cases users bdec udec ver h with ⟨u, hu⟩ | hr
    · exact absurd hu (hne u)
    · exact hr

/-- Witness for C5: the fixture user `alice` authenticates with password
`pw` and yields root `/srv/alice`. -/
theorem c5_auth_success_and_uniform_401_witness :
    basic_auth users1 bdec1 udec1 ver1 (some ("Basic " ++ "QWxpY2U6cHc=")) =
      AuthResult.proceed { username := "alice", directory := "/srv/alice" } :=
  c5_auth_success_and_uniform_401.1 users1 bdec1 udec1 ver1 "QWxpY2U6cHc=" [0] "alice" "pw"
    { password := "stored-hash", directory := "/srv/alice" }
    (by decide) (by decide) (by decide) (by decide) (by decide) (by decide)

/-- C4 counterexample: for the decoded credential string `u:p:q`, the
extracted password is `p`, not the text `p:q` after the first colon, so the
claim that the password is everything after the first colon is false. -/
theorem c4_counterexample :
    (parseCreds "u:p:q").2 = "p" ∧ (parseCreds "u:p:q").2 ≠ "p:q" := by decide

/-- C4 (amended): the username is the text before the first colon (the whole
string when no colon occurs, in which case the password is empty and there is
no early rejection), and the password is the text strictly between the first
and second colons (to the end when there is no second colon); text from a
second colon onward is discarded. -/
theorem c4_amended_colon_split (u rest : String) (hu : ':' ∉ u.data) :
    parseCreds u = (u, "")
    ∧ parseCreds (u ++ ":" ++ rest) =
        (u, String.mk (rest.data.takeWhile (fun c => c != ':'))) := by
  constructor
  · unfold parseCreds splitColon
    rw [splitOnChar_no_sep ':' u.data hu]
    rfl
  · unfold parseCreds splitColon
    have hdata : (u ++ ":" ++ rest).data = u.data ++ ':' :: rest.data := by
      rw [string_data_append, string_data_append, List.append_assoc]
      rfl
    rw [hdata, splitOnChar_of_sep ':' u.data rest.data hu]
    obtain ⟨t, ht⟩ := splitOnChar_head ':' rest.data
    rw [ht]
    rfl

/-- Witness for C4 (amended) at the decoded string `user:pa:ss`. -/
theorem c4_amended_colon_split_witness :
    parseCreds ("user" ++ ":" ++ "pa:ss") =
      ("user", String.mk (("pa:ss").data.takeWhile (fun c => c != ':'))) :=
  (c4_amended_colon_split "user" "pa:ss" (by decide)).2

/-- C1 counterexample: with a filesystem in which the joined path exists but
canonicalization fails, the handler performs the existence check on the
joined path although `is_safe` never returns true for it, so the claim that
no filesystem operation precedes a passed containment check is false. -/
theorem c1_counterexample :
    FsOp.existsOp "/srv/alice/ghost"
        ∈ (request_handler fsGhost mime0 u0 (some "ghost")).trace
    ∧ is_safe fsGhost "/srv/alice/ghost" "/srv/alice" = false := by decide

/-- C1 (amended): when `is_safe` does not return true for the joined path,
the only filesystem operations the handler performs are the initial existence
check and the resolver's own canonicalization; metadata, open and
directory-read operations happen only after `is_safe` returned true. -/
theorem c1_amended_fs_ops_gated (fs : Fs) (mime : String → String)
    (u : AuthenticatedUser) (po : Option String) (afp : String)
    (hafp : afp = (match po with
                   | some p => pathJoin u.directory p
                   | none => u.directory))
    (hnosafe : is_safe fs afp u.directory = false) :
    (request_handler fs mime u po).trace = [FsOp.existsOp afp]
    ∨ (request_handler fs mime u po).trace = [FsOp.existsOp afp, FsOp.canonOp afp] := by
  cases po with
  | none =>
    have hafp' : afp = u.directory := hafp
    subst hafp'
    unfold request_handler
    dsimp only
    by_cases hex : (fs.existsP u.directory).getD false = true
    · rw [if_pos hex, if_neg (by simp [hnosafe])]
      unfold is_safe_trace
      by_cases hany :
          (components u.directory).any (fun c => c == PathComponent.parentDir) = true
      · rw [if_pos hany]
        exact Or.inl rfl
      · rw [if_neg hany]
        exact Or.inr rfl
    · rw [if_neg hex]
      exact Or.inl rfl
  | some p =>
    have hafp' : afp = pathJoin u.directory p := hafp
    subst hafp'
    unfold request_handler
    dsimp only
    by_cases hex : (fs.existsP (pathJoin u.directory p)).getD false = true
    · rw [if_pos hex, if_neg (by simp [hnosafe])]
      unfold is_safe_trace
      by_cases hany :
          (components (pathJoin u.directory p)).any
            (fun c => c == PathComponent.parentDir) = true
      · rw [if_pos hany]
        exact Or.inl rfl
      · rw [if_neg hany]
        exact Or.inr rfl
    · rw [if_neg hex]
      exact Or.inl rfl

/-- Witness for C1 (amended) at the `fsGhost` fixture. -/
theorem c1_amended_fs_ops_gated_witness :
    (request_handler fsGhost mime0 u0 (some "ghost")).trace
        = [FsOp.existsOp "/srv/alice/ghost"]
    ∨ (request_handler fsGhost mime0 u0 (some "ghost")).trace
        = [FsOp.existsOp "/srv/alice/ghost", FsOp.canonOp "/srv/alice/ghost"] :=
  c1_amended_fs_ops_gated fsGhost mime0 u0 (some "ghost") "/srv/alice/ghost"
    (by decide) (by decide)

/-- C8: for a joined path that passed the existence and safety checks and is
a regular file, a failed open yields the 404 Not Found response (not 500),
and a successful open yields 200 streaming the file's bytes, with the MIME
guess as Content-Type and the base name in Content-Disposition. -/
theorem c8_file_open (fs : Fs) (mime : String → String) (u : AuthenticatedUser)
    (p : String)
    (hex : (fs.existsP (pathJoin u.directory p)).getD false = true)
    (hsafe : is_safe fs (pathJoin u.directory p) u.directory = true)
    (hfile : fs.isFileP (pathJoin u.directory p) = true) :
    (fs.openP (pathJoin u.directory p) = none →
        (request_handler fs mime u (some p)).resp = some notFoundResp)
    ∧ (∀ contents nm, fs.openP (pathJoin u.directory p) = some contents →
        fileName (pathJoin u.directory p) = some nm →
        (request_handler fs mime u (some p)).resp =
          some { status := 200
                 headers := [("Content-Type", mime (pathJoin u.directory p)),
                             ("Content-Disposition",
                              "attachment; filename=\"" ++ nm ++ "\"")]
                 body := RBody.stream contents }) := by
  constructor
  · intro hopen
    unfold request_handler
    dsimp only
    rw [if_pos hex, if_pos hsafe, if_pos hfile, hopen]
  · intro contents nm hopen hnm
    unfold request_handler
    dsimp only
    rw [if_pos hex, if_pos hsafe, if_pos hfile, hopen]
    dsimp only
    unfold handle_file
    rw [hnm]

/-- Witness for C8 at the `fsId` fixture and request `notes.txt`. -/
theorem c8_file_open_witness :
    (request_handler fsId mime0 u0 (some "notes.txt")).resp =
      some { status := 200
             headers := [("Content-Type", mime0 (pathJoin "/srv/alice" "notes.txt")),
                         ("Content-Disposition",
                          "attachment; filename=\"" ++ "notes.txt" ++ "\"")]
             body := RBody.stream "hello" } :=
  (c8_file_open fsId mime0 u0 "notes.txt" (by decide) (by decide) (by decide)).2
    "hello" "notes.txt" (by decide) (by decide)

/-- C7: evaluation at the failing input: an existing directory that passes
the safety check but whose `read_dir` fails makes `request_handler` panic
(`read_dir().unwrap()` in `handle_dir`), producing no HTTP response at all,
which contradicts the claimed propagation policy. -/
theorem c7_readdir_unwrap_panics :
    (request_handler fsDirErr mime0 u0 (some "sub")).resp = none := by decide

theorem string_ext (a b : String) (h : a.data = b.data) : a = b := by
  rw [← string_mk_data a, ← string_mk_data b, h]

theorem string_append_assoc (a b c : String) : (a ++ b) ++ c = a ++ (b ++ c) := by
  apply string_ext
  rw [string_data_append, string_data_append, string_data_append, string_data_append]
  exact List.append_assoc a.data b.data c.data

theorem strAppend_ne_empty_left (x y : String) (h : x ≠ "") : x ++ y ≠ "" := by
  intro hxy
  have hd : (x ++ y).data = [] := by rw [hxy]
  have hd2 : x.data ++ y.data = [] := hd
  exact string_data_ne_nil x h (List.append_eq_nil.mp hd2).1

theorem pathJoin_rel (dp n : String) (hrel : isAbs n = false) (hne : dp ≠ "")
    (hsl : endsWithSlash dp = false) : pathJoin dp n = dp ++ "/" ++ n := by
  unfold pathJoin
  rw [if_neg (by simp [hrel]), if_neg hne, if_neg (by simp [hsl])]

theorem listLe_trans : ∀ (a b c : List Char),
    listLe a b = true → listLe b c = true → listLe a c = true := by
  intro a
  induction a with
  | nil => intro b c _ _; rfl
  | cons x xs ih =>
    intro b c hab hbc
    cases b with
    | nil => simp [listLe] at hab
    | cons y ys =>
      cases c with
      | nil => simp [listLe] at hbc
      | cons z zs =>
        simp only [listLe] at hab hbc ⊢
        by_cases h1 : x.toNat < y.toNat
        · by_cases h2 : y.toNat < z.toNat
          · rw [if_pos (show x.toNat < z.toNat by omega)]
          · by_cases h3 : z.toNat < y.toNat
            · rw [if_neg h2, if_pos h3] at hbc
              simp at hbc
            · rw [if_pos (show x.toNat < z.toNat by omega)]
        · by_cases h1' : y.toNat < x.toNat
          · rw [if_neg h1, if_pos h1'] at hab
            simp at hab
          · rw [if_neg h1, if_neg h1'] at hab
            by_cases h2 : y.toNat < z.toNat
            · rw [if_pos (show x.toNat < z.toNat by omega)]
            · by_cases h3 : z.toNat < y.toNat
              · rw [if_neg h2, if_pos h3] at hbc
                simp at hbc
              · rw [if_neg h2, if_neg h3] at hbc
                rw [if_neg (show ¬ x.toNat < z.toNat by omega),
                  if_neg (show ¬ z.toNat < x.toNat by omega)]
                exact ih ys zs hab hbc

theorem listLe_total : ∀ (a b : List Char), (listLe a b || listLe b a) = true := by
  intro a
  induction a with
  | nil => intro b; rfl
  | cons x xs ih =>
    intro b
    cases b with
    | nil => rfl
    | cons y ys =>
      simp only [listLe]
      by_cases h1 : x.toNat < y.toNat
      · rw [if_pos h1]
        rfl
      · by_cases h2 : y.toNat < x.toNat
        · rw [if_neg h1, if_pos h2, if_pos h2]
          simp
        · rw [if_neg h1, if_neg h2, if_neg h2, if_neg h1]
          exact ih ys

theorem strLe_trans (a b c : String) (hab : strLe a b = true) (hbc : strLe b c = true) :
    strLe a c = true :=
  listLe_trans a.data b.data c.data hab hbc

theorem strLe_total (a b : String) : (strLe a b || strLe b a) = true :=
  listLe_total a.data b.data

theorem mem_insertSorted (le : α → α → Bool) (x a : α) (l : List α) :
    x ∈ insertSorted le a l ↔ x = a ∨ x ∈ l := by
  induction l with
  | nil => simp [insertSorted]
  | cons b rest ih =>
    by_cases hab : le a b = true
    · simp [insertSorted, hab, List.mem_cons]
    · simp only [insertSorted, if_neg hab, List.mem_cons, ih]
      tauto

theorem length_insertSorted (le : α → α → Bool) (a : α) (l : List α) :
    (insertSorted le a l).length = l.length + 1 := by
  induction l with
  | nil => rfl
  | cons b rest ih =>
    by_cases hab : le a b = true
    · simp [insertSorted, hab]
    · simp [insertSorted, hab, ih]

theorem pairwise_insertSorted (le : α → α → Bool)
    (htot : ∀ a b, (le a b || le b a) = true)
    (htr : ∀ a b c, le a b = true → le b c = true → le a c = true)
    (a : α) (l : List α) (hl : l.Pairwise (fun x y => le x y = true)) :
    (insertSorted le a l).Pairwise (fun x y => le x y = true) := by
  induction l with
  | nil => simp [insertSorted]
  | cons b rest ih =>
    rcases List.pairwise_cons.mp hl with ⟨hb, hrest⟩
    by_cases hab : le a b = true
    · simp only [insertSorted, if_pos hab]
      refine List.pairwise_cons.mpr ⟨?_, hl⟩
      intro x hx
      rcases List.mem_cons.mp hx with hxa | hxr
      · rw [hxa]
        exact hab
      · exact htr a b x hab (hb x hxr)
    · simp only [insertSorted, if_neg hab]
      refine List.pairwise_cons.mpr ⟨?_, ih hrest⟩
      intro x hx
      rcases (mem_insertSorted le x a rest).mp hx with hxa | hxr
      · have hor := htot a b
        rw [Bool.or_eq_true] at hor
        rcases hor with h | h
        · exact absurd h hab
        · rw [hxa]
          exact h
      · exact hb x hxr

theorem mem_sortBy (le : α → α → Bool) (x : α) (l : List α) :
    x ∈ sortBy le l ↔ x ∈ l := by
  induction l with
  | nil => exact Iff.rfl
  | cons a rest ih =>
    show x ∈ insertSorted le a (sortBy le rest) ↔ _
    rw [mem_insertSorted le x a (sortBy le rest), ih, List.mem_cons]

theorem length_sortBy (le : α → α → Bool) (l : List α) :
    (sortBy le l).length = l.length := by
  induction l with
  | nil => rfl
  | cons a rest ih =>
    show (insertSorted le a (sortBy le rest)).length = _
    rw [length_insertSorted le a (sortBy le rest), ih, List.length_cons]

theorem sorted_sortBy (le : α → α → Bool)
    (htot : ∀ a b, (le a b || le b a) = true)
    (htr : ∀ a b c, le a b = true → le b c = true → le a c = true)
    (l : List α) : (sortBy le l).Pairwise (fun x y => le x y = true) := by
  induction l with
  | nil => simp [sortBy]
  | cons a rest ih =>
    show (insertSorted le a (sortBy le rest)).Pairwise _
    exact pairwise_insertSorted le htot htr a (sortBy le rest) ih

theorem childLinks_concat (base : String) (hbase : base ≠ "") :
    ∀ l : List String, (∀ c ∈ l, ∃ x, c = base ++ x) →
      childLinks base l =
        some (concatLines (l.map (fun c => html_link (stripBase base c) ++ "<br>\n"))) := by
  intro l
  induction l with
  | nil => intro _; rfl
  | cons c rest ih =>
    intro hmem
    obtain ⟨x, hx⟩ := hmem c (List.mem_cons_self c rest)
    have hrest : ∀ d ∈ rest, ∃ y, d = base ++ y :=
      fun d hd => hmem d (List.mem_cons_of_mem c hd)
    rw [hx]
    simp only [childLinks]
    rw [removeBaseDir_of_front base x hbase]
    dsimp only
    rw [ih hrest]
    dsimp only
    simp only [List.map_cons, concatLines, stripBase_of_front]

/-- C9 counterexample: for a directory (`/srv/alice/sub`, one child `a.txt`)
that is not the user's root, the rendered body's parent link displays `/`,
and no link in the body displays `..`, so the claim that the parent link's
displayed text is `..` is false. -/
theorem c9_counterexample :
    handle_dir fsDir1 "/srv/alice/sub" "/srv/alice" =
      some { status := 200, headers := [],
             body := RBody.text
               "<a href=\"/files//\">/</a><br>\n<a href=\"/files//sub/a.txt\">/sub/a.txt</a><br>\n" }
    ∧ splitOnceAux
        ("<a href=\"/files//\">/</a><br>\n<a href=\"/files//sub/a.txt\">/sub/a.txt</a><br>\n").data
        (">..<").data = none
    ∧ ("/srv/alice/sub" : String) ≠ "/srv/alice" := by decide

/-- C9 (amended): for every directory response the body is the parent line
followed by exactly one link per immediate child in sorted order; the parent
link is absent exactly when the base-stripped directory path has no parent
(in particular at the user's root, where that path is empty), and its
displayed text is the parent's base-stripped path — the literal `..` exactly
when that path is the empty string. -/
theorem c9_amended_listing (fs : Fs) (base suffix : String) (names : List String)
    (hbase : base ≠ "")
    (hsl : endsWithSlash (base ++ suffix) = false)
    (hnames : ∀ n ∈ names, isAbs n = false)
    (hrd : fs.readDirP (base ++ suffix) = some names) :
    handle_dir fs (base ++ suffix) base =
      some { status := 200, headers := [],
             body := RBody.text (parentLine suffix ++
               concatLines ((childrenOf (base ++ suffix) names).map
                 (fun c => html_link (stripBase base c) ++ "<br>\n"))) }
    ∧ (childrenOf (base ++ suffix) names).length = names.length
    ∧ (childrenOf (base ++ suffix) names).Pairwise (fun a b => strLe a b = true)
    ∧ (suffix = "" → parentLine suffix = "")
    ∧ (∀ par, pathParent suffix = some par → parentLine suffix ≠ "") := by
  have hne : base ++ suffix ≠ "" := strAppend_ne_empty_left base suffix hbase
  have hmem : ∀ c ∈ childrenOf (base ++ suffix) names, ∃ x, c = base ++ x := by
    intro c hc
    have hc' : c ∈ names.map (fun n => pathJoin (base ++ suffix) n) :=
      (mem_sortBy strLe c _).mp hc
    obtain ⟨n, hn, hcn⟩ := List.mem_map.mp hc'
    refine ⟨suffix ++ "/" ++ n, ?_⟩
    rw [← hcn, pathJoin_rel (base ++ suffix) n (hnames n hn) hne hsl]
    rw [string_append_assoc base suffix "/", string_append_assoc base (suffix ++ "/") n]
  refine ⟨?_, ?_, ?_, ?_, ?_⟩
  · unfold handle_dir
    rw [hrd]
    dsimp only
    rw [removeBaseDir_of_front base suffix hbase]
    dsimp only
    rw [childLinks_concat base hbase (childrenOf (base ++ suffix) names) hmem]
  · show (sortBy strLe (names.map (fun n => pathJoin (base ++ suffix) n))).length = _
    rw [length_sortBy, List.length_map]
  · exact sorted_sortBy strLe strLe_total strLe_trans _
  · intro h
    rw [h]
    rfl
  · intro par hp
    unfold parentLine
    rw [hp]
    exact strAppend_ne_empty_right (html_link par) "<br>\n" (by decide)

/-- Witness for C9 (amended): listing `/srv/alice/sub` with unsorted children
`b.txt`, `a.txt` under root `/srv/alice`. -/
theorem c9_amended_listing_witness :
    handle_dir fsDir2 ("/srv/alice" ++ "/sub") "/srv/alice" =
      some { status := 200, headers := [],
             body := RBody.text (parentLine "/sub" ++
               concatLines ((childrenOf ("/srv/alice" ++ "/sub") ["b.txt", "a.txt"]).map
                 (fun c => html_link (stripBase "/srv/alice" c) ++ "<br>\n"))) }
    ∧ (childrenOf ("/srv/alice" ++ "/sub") ["b.txt", "a.txt"]).length
        = (["b.txt", "a.txt"] : List String).length
    ∧ (childrenOf ("/srv/alice" ++ "/sub") ["b.txt", "a.txt"]).Pairwise
        (fun a b => strLe a b = true)
    ∧ (("/sub" : String) = "" → parentLine "/sub" = "")
    ∧ (∀ par, pathParent "/sub" = some par → parentLine "/sub" ≠ "") :=
  c9_amended_listing fsDir2 "/srv/alice" "/sub" ["b.txt", "a.txt"]
    (by decide) (by decide) (by decide) (by decide)
